import Mathlib

/-! Bounded session shutdown (`close.go`).

A shallow embedding of `Close` and `graceful.shutdown` from package `mongo`.

The Go program races three events inside one `select`: a fallback timer, the
completion signal sent by a background worker, and the caller's context.
The embedding is an idealised timeline model:

* instants and durations are integers counting nanoseconds;
* a `time.Duration` is a signed 64-bit count: `Time.Sub` saturates and `+`
  wraps, as in Go;
* every event of the environment (the context's `Done`, the return or panic of
  `session.Close()`) happens at a fixed instant, and a channel operation
  proceeds at the first instant at which it can;
* a `select` with several cases able to proceed at the same instant may take
  any of them, so `Close` yields the list of all outcomes it may have;
* a panic that leaves the worker goroutine ends the process, as every
  unrecovered panic does in Go;
* the package variables `start` and `timeLeft` hold the values they are
  initialised with.
-/

namespace Mongo

/-! ## Durations and instants (package `time`) -/

/-- An instant, in nanoseconds from an arbitrary epoch. -/
abbrev Time := Int

/-- Go's `time.Duration`: a nanosecond count held in a signed 64-bit integer. -/
abbrev Duration := Int

/-- The smallest `time.Duration`, `-1 << 63`. -/
def minDuration : Duration := -(2 ^ 63)

/-- The largest `time.Duration`, `1<<63 - 1`. -/
def maxDuration : Duration := 2 ^ 63 - 1

/-- Go's `time.Millisecond`. -/
def Millisecond : Duration := 1000000

/-- Two's-complement wrap-around of a mathematical integer into the int64 range:
what Go's `+` on `time.Duration` yields. -/
def wrap64 (x : Int) : Int := (x + 2 ^ 63) % 2 ^ 64 - 2 ^ 63

/-- Go's `Time.Sub`: the duration `t - u`, replaced by the maximum (or minimum)
duration when the difference does not fit in a `time.Duration`. -/
def Sub (t u : Time) : Duration :=
  if t - u < minDuration then minDuration
  else if maxDuration < t - u then maxDuration
  else t - u

/-- The instant at which the channel returned by `time.After(d)`, created at
`created`, delivers: after `d`, and at once when `d` is zero or negative. -/
def After (created : Time) (d : Duration) : Time :=
  if d ≤ 0 then created else created + d

/-! ## Errors and contexts (packages `errors` and `context`) -/

/-- The two errors a `context.Context` reports once it is done. -/
inductive CtxError
  | Canceled
  | DeadlineExceeded
  deriving DecidableEq, Repr

/-- The error values `Close` can hand to its caller. -/
inductive GoError
  | errorsNew (msg : String)
  | context (e : CtxError)
  deriving DecidableEq, Repr

/-- The `Error()` method: the message of an error value. -/
def GoError.Error : GoError → String
  | .errorsNew msg => msg
  | .context .Canceled => "context canceled"
  | .context .DeadlineExceeded => "context deadline exceeded"

/-- A `context.Context` as `Close` observes it: its deadline, the instant at
which its `Done` channel is closed (`none`: never), and the error `Err` reports
from then on. -/
structure Context where
  deadline : Option Time
  doneAt : Option Time
  cause : CtxError
  deriving DecidableEq, Repr

/-- The method `ctx.Deadline()`: `some d` stands for `(d, true)`. -/
def Context.Deadline (ctx : Context) : Option Time := ctx.deadline

/-- The method `ctx.Err()` called at instant `t`: `nil` until `Done` is closed. -/
def Context.Err (ctx : Context) (t : Time) : Option GoError :=
  match ctx.doneAt with
  | some d => if d ≤ t then some (.context ctx.cause) else none
  | none => none

/-! ## The session, the channel and the deferred calls -/

/-- A value passed to `panic`. -/
abbrev PanicValue := String

/-- How one call of `session.Close()` behaves: it returns at an instant, never
returns, or panics at an instant (as it does on a nil session). -/
inductive SessionClose
  | returns (c : Time)
  | hangs
  | panics (p : Time) (v : PanicValue)
  deriving DecidableEq, Repr

/-- What happens to the unbuffered `closedChannel` over the whole run: the
instant at which a receiver takes a value from it, and the instant at which
`close` is applied to it. -/
structure Chan where
  recvAt : Option Time
  closedAt : Option Time
  deriving DecidableEq, Repr

/-- How a send on a channel ends. -/
inductive SendResult
  | delivered (t : Time)
  | panicClosed (t : Time)
  | blocked
  deriving DecidableEq, Repr

/-- The statement `ch <- true` reached at instant `c`: it completes when a
receiver takes the value; it panics when the channel is closed, before the
send or while the sender is blocked in it; otherwise it blocks forever. -/
def chanSend (ch : Chan) (c : Time) : SendResult :=
  match ch.recvAt with
  | some r => .delivered r
  | none =>
    match ch.closedAt with
    | some k => .panicClosed (max c k)
    | none => .blocked

/-- The deferred calls of the program. -/
inductive Deferred
  | recoverAndIgnore
  | closeChan
  deriving DecidableEq, Repr

/-- The state of a function that is running its deferred calls: the panic in
flight, if any, and whether `closedChannel` has been closed by one of them. -/
structure Unwind where
  panicking : Option PanicValue
  chanClosed : Bool
  deriving DecidableEq, Repr

/-- Run the deferred calls, the most recently registered first. `recover()`
inside a deferred call stops the panic in flight; `close(closedChannel)` does
not touch it. -/
def runDeferred : List Deferred → Unwind → Unwind
  | [], u => u
  | .recoverAndIgnore :: ds, u => runDeferred ds { u with panicking := none }
  | .closeChan :: ds, u => runDeferred ds { u with chanClosed := true }

/-- How a goroutine's function ends. -/
inductive Exit
  | returned (t : Time)
  | panicked (v : PanicValue) (t : Time)
  | blocked
  deriving DecidableEq, Repr

/-- The exit of a function whose body stopped at `t`, after its deferred calls
have run: a panic still in flight leaves the function. -/
def exitAfter (u : Unwind) (t : Time) : Exit :=
  match u.panicking with
  | some v => .panicked v t
  | none => .returned t

/-- What a goroutine does, one event for each statement it executes. -/
inductive Event
  | sessionClose
  | deferStmt (d : Deferred)
  | send
  | makeChan
  | goStmt
  | selectStmt
  deriving DecidableEq, Repr

/-- The state of a function between two of its statements: the events so far
and the deferred calls registered so far, the most recent first. -/
structure Frame where
  trace : List Event
  deferred : List Deferred
  deriving DecidableEq, Repr

/-- How a statement ends: it completes at an instant and control goes on to the
next statement, it panics at an instant, or it never completes. -/
inductive Step
  | next (t : Time) (f : Frame)
  | panic (v : PanicValue) (t : Time) (f : Frame)
  | blocked (f : Frame)
  deriving DecidableEq, Repr

/-- Sequencing: the next statement runs only when this one has completed. -/
def Step.andThen (s : Step) (k : Time → Frame → Step) : Step :=
  match s with
  | .next t f => k t f
  | .panic v t f => .panic v t f
  | .blocked f => .blocked f

/-- The statement `session.Close()`: the call is made, and it returns, hangs or
panics as the session behaves. -/
def callSessionClose (session : SessionClose) (f : Frame) : Step :=
  let called : Frame := { f with trace := f.trace ++ [Event.sessionClose] }
  match session with
  | .returns c => .next c called
  | .hangs => .blocked called
  | .panics p v => .panic v p called

/-- A `defer` statement executed at instant `t`: the call is registered. -/
def deferStmt (d : Deferred) (t : Time) (f : Frame) : Step :=
  .next t { trace := f.trace ++ [Event.deferStmt d], deferred := d :: f.deferred }

/-- The statement `closedChannel <- true` executed at instant `t`. -/
def sendStmt (closedChannel : Chan) (t : Time) (f : Frame) : Step :=
  let sent : Frame := { f with trace := f.trace ++ [Event.send] }
  match chanSend closedChannel t with
  | .delivered r => .next r sent
  | .panicClosed k => .panic "send on closed channel" k sent
  | .blocked => .blocked sent

/-- One run of the background worker: the events of its statements and how it
ended. -/
structure WorkerRun where
  trace : List Event
  exit : Exit
  deriving DecidableEq, Repr

/-- How often a run of the worker called `session.Close()`. -/
def WorkerRun.closeCalls (w : WorkerRun) : Nat := w.trace.count Event.sessionClose

/-- The end of a function body: the deferred calls registered so far run, and
the function returns or lets the panic in flight go on to its caller. -/
def Step.finish (s : Step) : WorkerRun :=
  match s with
  | .next t f =>
    { trace := f.trace
      exit := exitAfter (runDeferred f.deferred { panicking := none, chanClosed := false }) t }
  | .panic v t f =>
    { trace := f.trace
      exit := exitAfter (runDeferred f.deferred { panicking := some v, chanClosed := false }) t }
  | .blocked f => { trace := f.trace, exit := .blocked }

/-! ## `graceful.shutdown` -/

/-- The receiver type `graceful` (an empty struct). -/
structure graceful where
  deriving DecidableEq, Repr

/-- The method `graceful.shutdown` (lines 18-29), statement by statement:
`session.Close()` (line 19), with nothing deferred yet; the `defer` of the
recovering handler (lines 21-25); the send on `closedChannel` (line 27). -/
def graceful.shutdown (_t : graceful) (_ctx : Context) (session : SessionClose)
    (closedChannel : Chan) : WorkerRun :=
  ((callSessionClose session { trace := [], deferred := [] }).andThen fun t1 f1 =>
    (deferStmt .recoverAndIgnore t1 f1).andThen fun t2 f2 =>
      sendStmt closedChannel t2 f2).finish

/-- The interface `Graceful`: anything with a `shutdown` method. -/
structure Graceful where
  shutdown : Context → SessionClose → Chan → WorkerRun

/-- The package variable `start`, initialised to `graceful{}`. -/
def start : Graceful := { shutdown := graceful.shutdown {} }

/-- The package variable `timeLeft`, initialised to 1000 ms. -/
def timeLeft : Duration := 1000 * Millisecond

/-! ## `Close` -/

/-- The surroundings of one call `Close(ctx, session)`: the context, the
behaviour of `session.Close()` in the worker, the instant `time.Now()` yields
on line 47, and the instant at which the `select` is entered and `time.After`
creates its timer. -/
structure Env where
  ctx : Context
  session : SessionClose
  now : Time
  selectAt : Time
  deriving DecidableEq, Repr

/-- The local `closeTimeLeft` (lines 42-48): a copy of `timeLeft`, replaced by
`deadline.Sub(time.Now()) + (10 * time.Millisecond)` when the context has a
deadline. -/
def closeTimeLeft (env : Env) : Duration :=
  match env.ctx.Deadline with
  | some deadline => wrap64 (Sub deadline env.now + 10 * Millisecond)
  | none => timeLeft

/-- The three cases of the `select` (lines 55-62), in source order. -/
inductive Branch
  | timer
  | closedChannel
  | done
  deriving DecidableEq, Repr

/-- The instant at which the worker started on line 50 reaches its send on
`closedChannel`: the instant `session.Close()` returns, if it does. -/
def sendOfferedAt : SessionClose → Option Time
  | .returns c => some c
  | .hangs => none
  | .panics _ _ => none

/-- The instant at which the timer of `time.After(closeTimeLeft)` delivers. -/
def timerAt (env : Env) : Time := After env.selectAt (closeTimeLeft env)

/-- The first instant, not before the `select` is entered, at which a case of
the `select` can proceed (`none`: never). -/
def readyAt (env : Env) : Branch → Option Time
  | .timer => some (timerAt env)
  | .closedChannel => (sendOfferedAt env.session).map (fun c => max c env.selectAt)
  | .done => env.ctx.doneAt.map (fun d => max d env.selectAt)

/-- The earlier of an instant and an optional instant. -/
def earlier (t : Time) : Option Time → Time
  | none => t
  | some u => min t u

/-- The instant at which the `select` resolves: the first at which one of its
cases can proceed. The timer case always can, at `timerAt`. -/
def resolveAt (env : Env) : Time :=
  earlier (earlier (timerAt env) (readyAt env .closedChannel)) (readyAt env .done)

/-- Whether a case can proceed at the instant the `select` resolves. -/
def canProceed (env : Env) (b : Branch) : Bool :=
  readyAt env b == some (resolveAt env)

/-- The value returned by each case of the `select`, taken at instant `r`. -/
def result (env : Env) (b : Branch) (r : Time) : Option GoError :=
  match b with
  | .timer => some (.errorsNew "closing mongo timed out")
  | .closedChannel => none
  | .done => env.ctx.Err r

/-- An outcome of a call of `Close`: it returns an error value (`none` is
`nil`) through one case of the `select` at an instant, or the process is ended
by a panic that left the worker goroutine before `Close` returned. -/
inductive Outcome
  | returned (via : Branch) (err : Option GoError) (t : Time)
  | crashed (v : PanicValue) (t : Time)
  deriving DecidableEq, Repr

/-- The panic, if any, with which the worker `go func() { start.shutdown(...) }()`
ends while `closedChannel` is still open and unread; nothing recovers it
outside `shutdown`, so it ends the process. -/
def workerCrash (env : Env) : Option (PanicValue × Time) :=
  match (start.shutdown env.ctx env.session { recvAt := none, closedAt := none }).exit with
  | .panicked v p => some (v, p)
  | .returned _ => none
  | .blocked => none

/-- The returns the `select` allows: one for each case that can proceed at
the instant it resolves. -/
def selectOutcomes (env : Env) : List Outcome :=
  ([Branch.timer, .closedChannel, .done].filter (canProceed env)).map
    (fun b => Outcome.returned b (result env b (resolveAt env)) (resolveAt env))

/-- The function `Close` (lines 37-63): every outcome the call may have. The
`select` takes a case that can proceed at the first instant at which any can;
a worker panic strictly before that instant ends the process first, and one at
that very instant may. -/
def Close (env : Env) : List Outcome :=
  match workerCrash env with
  | some (v, p) =>
    if p < resolveAt env then [.crashed v p]
    else if p = resolveAt env then .crashed v p :: selectOutcomes env
    else selectOutcomes env
  | none => selectOutcomes env

/-- The fate of `closedChannel` once `Close` has ended with outcome `o`: the
`select` received from it when it took that case, and the deferred
`close(closedChannel)` of line 39 runs when `Close` returns. -/
def closedChannelAfter (o : Outcome) : Chan :=
  match o with
  | .returned via _ r =>
    let u := runDeferred [.closeChan] { panicking := none, chanClosed := false }
    { recvAt := if via = .closedChannel then some r else none
      closedAt := if u.chanClosed then some r else none }
  | .crashed _ _ => { recvAt := none, closedAt := none }

/-- The complete run of the worker goroutine started on line 50, in a call of
`Close` that ends with outcome `o`. -/
def worker (env : Env) (o : Outcome) : WorkerRun :=
  start.shutdown env.ctx env.session (closedChannelAfter o)

/-- One run of a call of `Close`: its outcome, the events of the statements
the calling goroutine executed, and the runs of the goroutines it started. -/
structure CloseRun where
  outcome : Outcome
  trace : List Event
  workers : List WorkerRun
  deriving DecidableEq, Repr

/-- The statements of `Close` in a call that ends with outcome `o`:
`make(chan bool)` (line 38), the `defer` of `close(closedChannel)` (line 39),
the `go` statement that starts the worker (lines 50-53) and the `select`
(lines 55-62). The computation of `closeTimeLeft` calls nothing but the clock
and the context. -/
def runClose (env : Env) (o : Outcome) : CloseRun :=
  let f0 : Frame := { trace := [Event.makeChan], deferred := [] }
  let f1 : Frame :=
    { trace := f0.trace ++ [Event.deferStmt .closeChan], deferred := .closeChan :: f0.deferred }
  let f2 : Frame := { f1 with trace := f1.trace ++ [Event.goStmt] }
  let started : List WorkerRun := [worker env o]
  let f3 : Frame := { f2 with trace := f2.trace ++ [Event.selectStmt] }
  { outcome := o, trace := f3.trace, workers := started }

/-- Every run a call of `Close` may have: one for each of its outcomes. -/
def CloseRuns (env : Env) : List CloseRun := (Close env).map (runClose env)

/-- The number of calls of `session.Close()` in a run of `Close`: those of the
calling goroutine and those of every goroutine it started. -/
def CloseRun.sessionCloseCalls (run : CloseRun) : Nat :=
  run.trace.count Event.sessionClose + (run.workers.map WorkerRun.closeCalls).sum

/-! ## Example environments -/

/-- The context `context.Background()`: no deadline, never done. -/
def background : Context := { deadline := none, doneAt := none, cause := .Canceled }

/-- A context whose deadline `d` passes without an earlier cancellation. -/
def withDeadline (d : Time) : Context :=
  { deadline := some d, doneAt := some d, cause := .DeadlineExceeded }

/-- A context without deadline, cancelled at instant `d`. -/
def cancelledAt (d : Time) : Context :=
  { deadline := none, doneAt := some d, cause := .Canceled }

/-- A far deadline, as made by `context.WithDeadline(parent, t.Add(math.MaxInt64))`
at instant 0: `Close` reads the clock 5 microseconds later and enters its
`select` one microsecond after that; `session.Close()` never returns. -/
def farDeadlineEnv : Env :=
  { ctx := withDeadline (2 ^ 63 - 1), session := .hangs, now := 5000, selectAt := 6000 }

/-- A session whose close panics after 500 ms, under a context cancelled
after 20 ms. -/
def latePanicEnv : Env :=
  { ctx := cancelledAt (20 * Millisecond), session := .panics (500 * Millisecond) "late"
    now := 0, selectAt := 0 }

/-- A session whose close hangs, under `context.Background()`. -/
def hangingEnv : Env :=
  { ctx := background, session := .hangs, now := 0, selectAt := 0 }

/-- A session whose close returns after 70 ms, under a context cancelled
after 20 ms. -/
def cancelledEnv : Env :=
  { ctx := cancelledAt (20 * Millisecond), session := .returns (70 * Millisecond)
    now := 0, selectAt := 0 }

/-- A session whose close returns after 3 ms, under `context.Background()`. -/
def quickEnv : Env :=
  { ctx := background, session := .returns (3 * Millisecond), now := 0, selectAt := 0 }

/-! ## Properties stated by the specification -/

/-- The caller is unblocked within the wait budget: `Close` has an outcome,
every outcome is a return, and every return happens no later than the firing of
the timer, `closeTimeLeft` after the `select` was entered (at once when the
budget is not positive). -/
def returnsWithinBudget (env : Env) : Prop :=
  Close env ≠ [] ∧
    ∀ o ∈ Close env, ∃ via err t,
      o = .returned via err t ∧ t ≤ env.selectAt + max (closeTimeLeft env) 0

/-! ## Auxiliary facts -/

theorem After_eq_add_max (created : Time) (d : Duration) :
    After created d = created + max d 0 := by
  unfold After
  split
  · rename_i h
    rw [max_eq_right h, add_zero]
  · rename_i h
    rw [max_eq_left (le_of_lt (not_le.mp h))]

theorem timerAt_eq (env : Env) :
    timerAt env = env.selectAt + max (closeTimeLeft env) 0 :=
  After_eq_add_max _ _

theorem earlier_le (t : Time) (o : Option Time) : earlier t o ≤ t := by
  cases o with
  | none => exact le_refl _
  | some u => exact min_le_left _ _

theorem resolveAt_le_timerAt (env : Env) : resolveAt env ≤ timerAt env :=
  le_trans (earlier_le _ _) (earlier_le _ _)

theorem workerCrash_returns (ctx : Context) (c now selectAt : Time) :
    workerCrash { ctx := ctx, session := .returns c, now := now, selectAt := selectAt } = none := by
  simp [workerCrash, start, graceful.shutdown, callSessionClose, deferStmt, sendStmt,
      Step.andThen, Step.finish, chanSend]

theorem workerCrash_hangs (ctx : Context) (now selectAt : Time) :
    workerCrash { ctx := ctx, session := .hangs, now := now, selectAt := selectAt } = none := by
  simp [workerCrash, start, graceful.shutdown, callSessionClose, deferStmt, sendStmt,
      Step.andThen, Step.finish]

theorem workerCrash_panics (ctx : Context) (p : Time) (v : PanicValue) (now selectAt : Time) :
    workerCrash { ctx := ctx, session := .panics p v, now := now, selectAt := selectAt }
      = some (v, p) := by
  simp [workerCrash, start, graceful.shutdown, callSessionClose, deferStmt, sendStmt,
      Step.andThen, Step.finish, runDeferred, exitAfter]

/-- Some case of the `select` can proceed at the instant it resolves. -/
theorem canProceed_some (env : Env) :
    canProceed env .timer = true ∨ canProceed env .closedChannel = true ∨
      canProceed env .done = true := by
  unfold canProceed resolveAt
  simp only [beq_iff_eq]
  generalize readyAt env .closedChannel = a
  generalize readyAt env .done = b
  simp only [readyAt]
  generalize timerAt env = T
  cases a with
  | none =>
    cases b with
    | none => left; rfl
    | some y =>
      rcases min_choice T y with h | h
      · left; simp [earlier, h]
      · right; right; simp [earlier, h]
  | some x =>
    cases b with
    | none =>
      rcases min_choice T x with h | h
      · left; simp [earlier, h]
      · right; left; simp [earlier, h]
    | some y =>
      rcases min_choice (min T x) y with h | h
      · rcases min_choice T x with h2 | h2
        · left; simp only [earlier]; rw [h, h2]
        · right; left; simp only [earlier]; rw [h, h2]
      · right; right; simp only [earlier]; rw [h]

theorem mem_selectOutcomes (env : Env) (o : Outcome) :
    o ∈ selectOutcomes env ↔
      ∃ b, canProceed env b = true ∧
        o = .returned b (result env b (resolveAt env)) (resolveAt env) := by
  unfold selectOutcomes
  simp only [List.mem_map, List.mem_filter]
  constructor
  · rintro ⟨b, ⟨_, hb⟩, rfl⟩
    exact ⟨b, hb, rfl⟩
  · rintro ⟨b, hb, rfl⟩
    refine ⟨b, ⟨?_, hb⟩, rfl⟩
    cases b <;> simp

theorem selectOutcomes_ne_nil (env : Env) : selectOutcomes env ≠ [] := by
  intro h
  have key : ∀ b, canProceed env b = true → False := by
    intro b hb
    have hm : Outcome.returned b (result env b (resolveAt env)) (resolveAt env)
        ∈ selectOutcomes env := (mem_selectOutcomes env _).2 ⟨b, hb, rfl⟩
    rw [h] at hm
    exact List.not_mem_nil _ hm
  rcases canProceed_some env with h1 | h1 | h1
  · exact key _ h1
  · exact key _ h1
  · exact key _ h1

/-- Without a worker panic up to the instant the `select` resolves, the
outcomes of `Close` are the returns of its `select`. -/
theorem Close_eq_selectOutcomes_of_resolve (env : Env)
    (h : ∀ p v, env.session = .panics p v → resolveAt env < p) :
    Close env = selectOutcomes env := by
  obtain ⟨ctx, session, now, selectAt⟩ := env
  cases session with
  | returns c => simp only [Close, workerCrash_returns]
  | hangs => simp only [Close, workerCrash_hangs]
  | panics p v =>
    have hp := h p v rfl
    have h1 : ¬ p < resolveAt
        { ctx := ctx, session := .panics p v, now := now, selectAt := selectAt } :=
      not_lt.mpr (le_of_lt hp)
    have h2 : ¬ p = resolveAt
        { ctx := ctx, session := .panics p v, now := now, selectAt := selectAt } :=
      ne_of_gt hp
    simp only [Close, workerCrash_panics, if_neg h1, if_neg h2]

/-- Without a worker panic up to the firing of the timer, the outcomes of
`Close` are the returns of its `select`. -/
theorem Close_eq_selectOutcomes (env : Env)
    (h : ∀ p v, env.session = .panics p v → timerAt env < p) :
    Close env = selectOutcomes env :=
  Close_eq_selectOutcomes_of_resolve env
    (fun p v hs => lt_of_le_of_lt (resolveAt_le_timerAt env) (h p v hs))

/-- When one case of the `select` can proceed strictly before every other
case, the `select` resolves at that instant. -/
theorem resolveAt_of_first (env : Env) (b : Branch) (t : Time)
    (hb : readyAt env b = some t)
    (hothers : ∀ b2, b2 ≠ b → ∀ t2, readyAt env b2 = some t2 → t < t2) :
    resolveAt env = t := by
  have hT : readyAt env .timer = some (timerAt env) := rfl
  unfold resolveAt
  cases b with
  | timer =>
    have hTt : timerAt env = t := Option.some.inj (hT.symm.trans hb)
    have ha := hothers .closedChannel (by decide)
    have hd := hothers .done (by decide)
    rw [hTt]
    generalize readyAt env .closedChannel = a at *
    generalize readyAt env .done = d at *
    cases a with
    | none =>
      cases d with
      | none => rfl
      | some y =>
        have := hd y rfl
        simp only [earlier]; unfold Time at *; omega
    | some x =>
      have := ha x rfl
      cases d with
      | none => simp only [earlier]; unfold Time at *; omega
      | some y =>
        have := hd y rfl
        simp only [earlier]; unfold Time at *; omega
  | closedChannel =>
    have hTt : t < timerAt env := hothers .timer (by decide) _ hT
    have hd := hothers .done (by decide)
    rw [hb]
    generalize readyAt env .done = d at *
    generalize timerAt env = T at *
    cases d with
    | none => simp only [earlier]; unfold Time at *; omega
    | some y =>
      have := hd y rfl
      simp only [earlier]; unfold Time at *; omega
  | done =>
    have hTt : t < timerAt env := hothers .timer (by decide) _ hT
    have ha := hothers .closedChannel (by decide)
    rw [hb]
    generalize readyAt env .closedChannel = a at *
    generalize timerAt env = T at *
    cases a with
    | none => simp only [earlier]; unfold Time at *; omega
    | some x =>
      have := ha x rfl
      simp only [earlier]; unfold Time at *; omega

/-- When one case of the `select` can proceed strictly before every other
case, the `select` takes it, at that instant: the call has this one return. -/
theorem selectOutcomes_of_first (env : Env) (b : Branch) (t : Time)
    (hb : readyAt env b = some t)
    (hothers : ∀ b2, b2 ≠ b → ∀ t2, readyAt env b2 = some t2 → t < t2) :
    selectOutcomes env = [.returned b (result env b t) t] := by
  have hres := resolveAt_of_first env b t hb hothers
  have hcan : ∀ b2, canProceed env b2 = decide (b2 = b) := by
    intro b2
    unfold canProceed
    rw [hres]
    by_cases h : b2 = b
    · subst h
      simp [hb]
    · rw [decide_eq_false h]
      cases hr : readyAt env b2 with
      | none => rfl
      | some t2 =>
        have := hothers b2 h t2 hr
        simp only [beq_eq_false_iff_ne, ne_eq, Option.some.injEq]
        unfold Time at *
        omega
  unfold selectOutcomes
  rw [hres]
  simp only [List.filter_cons, hcan]
  cases b <;> simp

/-! ## The claims -/

/-- Every call of `Close` has an outcome. -/
theorem Close_ne_nil (env : Env) : Close env ≠ [] := by
  unfold Close
  split
  · split
    · simp
    · split
      · simp
      · exact selectOutcomes_ne_nil env
  · exact selectOutcomes_ne_nil env

/-- C1: for every context and every behaviour of the session's close that
leaves the process running until the `select` has resolved (a close that
returns at any instant, a close that never returns, a close that panics only
after that), `Close` returns to its caller, and every return happens no later
than the moment the timer of `closeTimeLeft`, started when the `select` is
entered, fires. -/
theorem Close_returns_within_budget (env : Env)
    (h : ∀ p v, env.session = .panics p v → resolveAt env < p) :
    returnsWithinBudget env := by
  rw [returnsWithinBudget, Close_eq_selectOutcomes_of_resolve env h]
  refine ⟨selectOutcomes_ne_nil env, ?_⟩
  intro o ho
  obtain ⟨b, _, rfl⟩ := (mem_selectOutcomes env o).1 ho
  refine ⟨b, _, _, rfl, ?_⟩
  rw [← timerAt_eq]
  exact resolveAt_le_timerAt env

/-- C1, at a close that panics 500 ms after the call, under a context
cancelled after 20 ms: the `select` has resolved at 20 ms, before the panic,
and `Close` returns the context's error then. -/
theorem Close_returns_within_budget_witness :
    resolveAt latePanicEnv = 20 * Millisecond ∧
      Close latePanicEnv
        = [.returned .done (some (.context .Canceled)) (20 * Millisecond)] ∧
      returnsWithinBudget latePanicEnv :=
  ⟨by decide, by decide,
    Close_returns_within_budget latePanicEnv (by
      intro p v h
      cases h
      decide)⟩

/-- C3: when the context has no deadline and its `Done` is not closed at any
instant of the wait, and `session.Close()` never returns, `Close` returns the
timeout error, a non-nil value, exactly `timeLeft` = 1000 ms after the `select`
was entered: no other outcome and no other instant is possible. -/
theorem Close_timeout_path (env : Env) (hd : env.ctx.Deadline = none)
    (hc : ∀ d, env.ctx.doneAt = some d → env.selectAt + timeLeft < d)
    (hs : env.session = .hangs) :
    Close env = [.returned .timer (some (.errorsNew "closing mongo timed out"))
      (env.selectAt + 1000 * Millisecond)] := by
  have hbudget : closeTimeLeft env = timeLeft := by
    unfold closeTimeLeft
    rw [hd]
  have hT : timerAt env = env.selectAt + 1000 * Millisecond := by
    unfold timerAt
    rw [hbudget]
    simp [After, timeLeft, Millisecond]
  rw [Close_eq_selectOutcomes env (by intro p v h; rw [hs] at h; cases h)]
  have := selectOutcomes_of_first env .timer (env.selectAt + 1000 * Millisecond)
    (by simp only [readyAt, hT]) (by
      intro b2 hb2 t2 ht2
      cases b2 with
      | timer => exact absurd rfl hb2
      | closedChannel => simp [readyAt, hs, sendOfferedAt] at ht2
      | done =>
        simp only [readyAt, Option.map_eq_some'] at ht2
        obtain ⟨d, hd1, hd2⟩ := ht2
        have := hc d hd1
        simp only [timeLeft] at this
        unfold Time at *
        omega)
  simpa [result] using this

/-- C3, at a hanging close under `context.Background()`. -/
theorem Close_timeout_path_witness :
    Close hangingEnv = [.returned .timer (some (.errorsNew "closing mongo timed out"))
      (hangingEnv.selectAt + 1000 * Millisecond)] :=
  Close_timeout_path hangingEnv rfl (by intro d h; cases h) rfl

/-- C4: when the context is never done and `session.Close()` returns so that
its completion is delivered on `closedChannel` strictly before the timer fires,
`Close` returns nil, at the instant of the delivery, before the wait budget
has elapsed: no other outcome is possible. -/
theorem Close_success_path (env : Env) (c : Time) (hctx : env.ctx.doneAt = none)
    (hs : env.session = .returns c) (hlt : max c env.selectAt < timerAt env) :
    Close env = [.returned .closedChannel none (max c env.selectAt)] ∧
      max c env.selectAt < env.selectAt + closeTimeLeft env := by
  constructor
  · rw [Close_eq_selectOutcomes env (by intro p v h; rw [hs] at h; cases h)]
    have := selectOutcomes_of_first env .closedChannel (max c env.selectAt)
      (by simp only [readyAt, hs, sendOfferedAt, Option.map_some']) (by
        intro b2 hb2 t2 ht2
        cases b2 with
        | timer =>
          simp only [readyAt, Option.some.injEq] at ht2
          rw [← ht2]
          exact hlt
        | closedChannel => exact absurd rfl hb2
        | done => simp [readyAt, hctx] at ht2)
    simpa [result] using this
  · unfold timerAt After at hlt
    split at hlt
    · have := le_max_right c env.selectAt
      exact absurd hlt (not_lt.mpr this)
    · exact hlt

/-- C4, at a close that returns after 3 ms under `context.Background()`. -/
theorem Close_success_path_witness :
    Close quickEnv = [.returned .closedChannel none (max (3 * Millisecond) quickEnv.selectAt)] ∧
      max (3 * Millisecond) quickEnv.selectAt < quickEnv.selectAt + closeTimeLeft quickEnv :=
  Close_success_path quickEnv (3 * Millisecond) rfl rfl (by decide)

/-- C5: when the context's `Done` is closed while `Close` waits in its
`select`, before `session.Close()` has ended and before the timer fires,
`Close` returns exactly the value of `ctx.Err()`, which is the context's own
error: no other outcome is possible. -/
theorem Close_cancellation_path (env : Env) (d : Time)
    (hdone : env.ctx.doneAt = some d) (hcall : env.selectAt ≤ d)
    (hbudget : d < timerAt env)
    (hclose : ∀ c, env.session = .returns c → d < c)
    (hpanic : ∀ p v, env.session = .panics p v → d < p) :
    Close env = [.returned .done (env.ctx.Err d) d] ∧
      env.ctx.Err d = some (.context env.ctx.cause) := by
  have hready : readyAt env .done = some d := by
    simp only [readyAt, hdone, Option.map_some', max_eq_left hcall]
  have hothers : ∀ b2, b2 ≠ Branch.done → ∀ t2, readyAt env b2 = some t2 → d < t2 := by
    intro b2 hb2 t2 ht2
    cases b2 with
    | timer =>
      simp only [readyAt, Option.some.injEq] at ht2
      rw [← ht2]
      exact hbudget
    | closedChannel =>
      cases hsess : env.session with
      | returns c =>
        have hc := hclose c hsess
        simp only [readyAt, hsess, sendOfferedAt, Option.map_some', Option.some.injEq] at ht2
        rw [← ht2]
        exact lt_of_lt_of_le hc (le_max_left _ _)
      | hangs => simp [readyAt, hsess, sendOfferedAt] at ht2
      | panics p v => simp [readyAt, hsess, sendOfferedAt] at ht2
    | done => exact absurd rfl hb2
  have hres := resolveAt_of_first env .done d hready hothers
  constructor
  · rw [Close_eq_selectOutcomes_of_resolve env (by
      intro p v h
      rw [hres]
      exact hpanic p v h)]
    have := selectOutcomes_of_first env .done d hready hothers
    simpa [result] using this
  · simp [Context.Err, hdone]

/-- C5, at a context cancelled after 20 ms while the close takes 70 ms. -/
theorem Close_cancellation_path_witness :
    Close cancelledEnv
        = [.returned .done (cancelledEnv.ctx.Err (20 * Millisecond)) (20 * Millisecond)] ∧
      cancelledEnv.ctx.Err (20 * Millisecond) = some (.context cancelledEnv.ctx.cause) :=
  Close_cancellation_path cancelledEnv (20 * Millisecond) rfl (by decide) (by decide)
    (by intro c h; cases h; decide) (by intro p v h; cases h)

/-- C7: when `session.Close()` has returned and `Close` returns through the
timer case or the context case, the worker's send on `closedChannel` meets the
channel closed by the deferred `close(closedChannel)`; the panic of that send
is recovered inside `shutdown`, which returns normally: the worker neither
ends the process nor stays blocked in the send. -/
theorem late_send_is_recovered (env : Env) (c : Time) (hs : env.session = .returns c) :
    ∀ via err r, Outcome.returned via err r ∈ Close env → (via = .timer ∨ via = .done) →
      chanSend (closedChannelAfter (.returned via err r)) c = .panicClosed (max c r) ∧
        (worker env (.returned via err r)).exit = .returned (max c r) ∧
        workerCrash env = none := by
  intro via err r _ hvia
  have hne : via ≠ Branch.closedChannel := by
    rcases hvia with h | h <;> rw [h] <;> decide
  refine ⟨?_, ?_, ?_⟩
  · simp [chanSend, closedChannelAfter, runDeferred, hne]
  · simp [worker, start, graceful.shutdown, callSessionClose, deferStmt, sendStmt,
      Step.andThen, Step.finish, hs, chanSend, closedChannelAfter, runDeferred,
      exitAfter, hne]
  · simp [workerCrash, start, graceful.shutdown, callSessionClose, deferStmt, sendStmt,
      Step.andThen, Step.finish, hs, chanSend]

/-- C7, at a close that returns after 70 ms under a context cancelled after
20 ms: `Close` returned through the context case at 20 ms, and the worker's
`shutdown` returns at 70 ms. -/
theorem late_send_is_recovered_witness :
    Outcome.returned .done (some (.context .Canceled)) (20 * Millisecond) ∈ Close cancelledEnv ∧
      (worker cancelledEnv
          (.returned .done (some (.context .Canceled)) (20 * Millisecond))).exit
        = .returned (70 * Millisecond) :=
  ⟨by decide,
    (late_send_is_recovered cancelledEnv (70 * Millisecond) rfl .done
      (some (.context .Canceled)) (20 * Millisecond) (by decide) (Or.inr rfl)).2.1⟩

/-- C8: every call of `Close` has a run, and in every run, whatever its
outcome, `session.Close()` is called exactly once: never by the statements of
`Close` itself, and once by the one worker the call starts, as the first
statement that worker executes. -/
theorem session_close_invoked_once (env : Env) :
    CloseRuns env ≠ [] ∧
      ∀ run ∈ CloseRuns env,
        run.sessionCloseCalls = 1 ∧
          run.trace.count Event.sessionClose = 0 ∧
          run.workers.length = 1 ∧
          ∀ w ∈ run.workers, w.closeCalls = 1 ∧ w.trace.head? = some Event.sessionClose := by
  constructor
  · intro h
    exact Close_ne_nil env (List.map_eq_nil_iff.1 h)
  · intro run hrun
    obtain ⟨o, _, rfl⟩ := List.mem_map.1 hrun
    have hw : (worker env o).closeCalls = 1 ∧
        (worker env o).trace.head? = some Event.sessionClose := by
      unfold worker start graceful.shutdown callSessionClose
      cases env.session with
      | hangs => simp [Step.andThen, Step.finish, WorkerRun.closeCalls]
      | panics p v => simp [Step.andThen, Step.finish, WorkerRun.closeCalls]
      | returns c =>
        simp only [Step.andThen, deferStmt, sendStmt]
        cases chanSend (closedChannelAfter o) c <;>
          simp [Step.finish, WorkerRun.closeCalls]
    refine ⟨?_, ?_, ?_, ?_⟩
    · simp [CloseRun.sessionCloseCalls, runClose, hw.1]
    · simp [runClose]
    · simp [runClose]
    · intro w hmem
      simp only [runClose, List.mem_singleton] at hmem
      subst hmem
      exact hw

/-- C8, at a hanging close under `context.Background()`, where the caller sees
the timeout first: the run has one call of `session.Close()`, made by the
worker. -/
theorem session_close_invoked_once_witness :
    runClose hangingEnv
          (.returned .timer (some (.errorsNew "closing mongo timed out")) (1000 * Millisecond))
        ∈ CloseRuns hangingEnv ∧
      (runClose hangingEnv
          (.returned .timer (some (.errorsNew "closing mongo timed out"))
            (1000 * Millisecond))).sessionCloseCalls = 1 :=
  ⟨by decide, ((session_close_invoked_once hangingEnv).2 _ (by decide)).1⟩

/-- C9, as stated, fails: with a hanging close under `context.Background()`,
`Close` returns through the timer case and the message of its error is not
"closing resource timed out". -/
theorem timeout_message_is_not_resource :
    ¬ (∀ err t, Outcome.returned .timer err t ∈ Close hangingEnv →
        err.map GoError.Error = some "closing resource timed out") := by
  intro h
  have := h (some (.errorsNew "closing mongo timed out")) (1000 * Millisecond) (by decide)
  revert this
  decide

/-- C9 (amended): whenever `Close` returns through the timer case of its
`select`, the error it returns is the value of
`errors.New("closing mongo timed out")`, whose message is exactly
"closing mongo timed out". -/
theorem timeout_message (env : Env) (err : Option GoError) (t : Time)
    (h : Outcome.returned .timer err t ∈ Close env) :
    err = some (.errorsNew "closing mongo timed out") ∧
      err.map GoError.Error = some "closing mongo timed out" := by
  have hsel : Outcome.returned .timer err t ∈ selectOutcomes env := by
    unfold Close at h
    split at h
    · split at h
      · simp at h
      · split at h
        · simpa using h
        · exact h
    · exact h
  obtain ⟨b, _, hb⟩ := (mem_selectOutcomes env _).1 hsel
  injection hb with h1 h2 h3
  subst h1
  rw [h2]
  exact ⟨rfl, rfl⟩

/-- C9 (amended), at a hanging close under `context.Background()`. -/
theorem timeout_message_witness :
    (some (GoError.errorsNew "closing mongo timed out")).map GoError.Error
      = some "closing mongo timed out" :=
  (timeout_message hangingEnv (some (.errorsNew "closing mongo timed out"))
    (1000 * Millisecond) (by decide)).2

/-- C10: the recovering handler of `shutdown` protects only the send. A panic
of `session.Close()` finds no deferred call registered: it leaves `shutdown`
with its value and ends the worker and the process, whatever the state of the
channel. A panic of the send on the closed `closedChannel` is recovered and
`shutdown` returns normally. -/
theorem recover_protects_only_send (g : graceful) (ctx : Context) (p : Time)
    (v : PanicValue) (ch : Chan) (c k now selectAt : Time) :
    (graceful.shutdown g ctx (.panics p v) ch).exit = .panicked v p ∧
      workerCrash { ctx := ctx, session := .panics p v, now := now, selectAt := selectAt }
        = some (v, p) ∧
      chanSend { recvAt := none, closedAt := some k } c = .panicClosed (max c k) ∧
      (graceful.shutdown g ctx (.returns c) { recvAt := none, closedAt := some k }).exit
        = .returned (max c k) := by
  refine ⟨?_, workerCrash_panics ctx p v now selectAt, ?_, ?_⟩
  · simp [graceful.shutdown, callSessionClose, deferStmt, sendStmt,
      Step.andThen, Step.finish, runDeferred, exitAfter]
  · simp [chanSend]
  · simp [graceful.shutdown, callSessionClose, deferStmt, sendStmt,
      Step.andThen, Step.finish, chanSend, runDeferred, exitAfter]

/-- C2, on the code: with a deadline 2^63 - 1 ns after instant 0, in the
future when `Close` reads the clock at 5 µs, and a close that hangs, the only
outcome of `Close` is the timeout error, returned at 6 µs when the `select` is
entered: the generic error, long before the deadline. -/
theorem far_deadline_returns_timeout :
    farDeadlineEnv.ctx.Deadline = some (2 ^ 63 - 1) ∧
      farDeadlineEnv.now < 2 ^ 63 - 1 ∧
      Close farDeadlineEnv
        = [.returned .timer (some (.errorsNew "closing mongo timed out")) 6000] ∧
      (6000 : Time) < 2 ^ 63 - 1 := by
  decide

/-- C6, on the code: with a deadline 2^63 - 1 ns after instant 0 and the
clock read at 5 µs, `deadline.Sub(time.Now())` is 9223372036854770807 ns, and
adding 10 ms wraps around: `closeTimeLeft` is negative, less than the time
remaining until the deadline, and the timer fires before the deadline. With a
deadline 2^70 ns ahead `Sub` saturates at the largest duration and the sum
wraps in the same way. -/
theorem far_deadline_budget_wraps :
    Sub (2 ^ 63 - 1) farDeadlineEnv.now = 9223372036854770807 ∧
      closeTimeLeft farDeadlineEnv = -9223372036844780809 ∧
      closeTimeLeft farDeadlineEnv < (2 ^ 63 - 1) - farDeadlineEnv.now ∧
      timerAt farDeadlineEnv < 2 ^ 63 - 1 ∧
      closeTimeLeft { ctx := withDeadline (2 ^ 70), session := .hangs, now := 0, selectAt := 0 }
        = -9223372036844775809 := by
  decide

/-! ## The wait budget within the range of `time.Duration` -/

/-- When the time remaining until the deadline, plus 10 ms, fits in a
`time.Duration`, `closeTimeLeft` is that sum: nothing saturates or wraps. -/
theorem closeTimeLeft_of_inRange (env : Env) (deadline : Time)
    (hD : env.ctx.Deadline = some deadline)
    (hlo : minDuration ≤ deadline - env.now)
    (hhi : deadline - env.now ≤ maxDuration - 10 * Millisecond) :
    closeTimeLeft env = deadline - env.now + 10 * Millisecond := by
  unfold closeTimeLeft
  rw [hD]
  simp only [Sub, wrap64, minDuration, maxDuration, Millisecond] at *
  unfold Time Duration at *
  split
  · omega
  · split
    · omega
    · omega

/-- Whenever the time remaining until the deadline is at most the largest
duration less 10 ms, however far in the past the deadline lies, the budget
exceeds the time remaining, so the timer fires after the deadline. -/
theorem closeTimeLeft_gt_remaining (env : Env) (deadline : Time)
    (hD : env.ctx.Deadline = some deadline)
    (hhi : deadline - env.now ≤ maxDuration - 10 * Millisecond) :
    deadline - env.now < closeTimeLeft env := by
  unfold closeTimeLeft
  rw [hD]
  simp only [Sub, wrap64, minDuration, maxDuration, Millisecond] at *
  unfold Time Duration at *
  split
  · omega
  · split
    · omega
    · omega

/-- With a deadline in the future whose distance, plus 10 ms, fits in a
`time.Duration`, a context that is done at its deadline and a close that
hangs, `Close` returns the context's error, at the deadline or, when the
`select` is entered later, at once: no other outcome is possible. -/
theorem Close_deadline_preferred_of_inRange (env : Env) (deadline : Time)
    (hD : env.ctx.Deadline = some deadline)
    (hdone : env.ctx.doneAt = some deadline)
    (hfuture : env.now < deadline) (hnow : env.now ≤ env.selectAt)
    (hhi : deadline - env.now ≤ maxDuration - 10 * Millisecond)
    (hs : env.session = .hangs) :
    Close env = [.returned .done (some (.context env.ctx.cause)) (max deadline env.selectAt)] ∧
      deadline ≤ max deadline env.selectAt := by
  have hlo : minDuration ≤ deadline - env.now := by
    simp only [minDuration]
    unfold Time Duration at *
    omega
  have hb := closeTimeLeft_of_inRange env deadline hD hlo hhi
  have hT : max deadline env.selectAt < timerAt env := by
    rw [timerAt_eq, hb]
    simp only [Millisecond]
    unfold Time at *
    omega
  refine ⟨?_, le_max_left _ _⟩
  rw [Close_eq_selectOutcomes env (by intro p v h; rw [hs] at h; cases h)]
  have := selectOutcomes_of_first env .done (max deadline env.selectAt)
    (by simp only [readyAt, hdone, Option.map_some']) (by
      intro b2 hb2 t2 ht2
      cases b2 with
      | timer =>
        simp only [readyAt, Option.some.injEq] at ht2
        rw [← ht2]
        exact hT
      | closedChannel => simp [readyAt, hs, sendOfferedAt] at ht2
      | done => exact absurd rfl hb2)
  simpa [result, Context.Err, hdone] using this

end Mongo
